/-
Verification of the log-reading core of PyEveLiveDPS
(src/PyEveLiveDPS/logreader.py) against its natural-language
specification.

Text is modelled as `List Char` (Python `str`).  The fourteen category
regexes compiled in `BaseLogReader.__init__` all share one shape:

    \(combat\) <  .*?  MID  ([0-9]+)  .*  SUFFIX

i.e. the literal prefix "(combat) <", a lazy gap, a literal `mid`
(e.g. "><b>", "ff7fffff><b>", "><b>+", "><b>-"), a captured digit run,
a greedy gap, and a literal `suffix` (e.g. ">to<").  Since Python's `.`
does not match a newline, every gap is confined to a single line.

The matcher below implements exactly Python `re.findall` semantics for
this pattern family: scan left to right; at each start position try the
literal prefix, then let the lazy gap grow one (non-newline) character
at a time until `mid`, a non-empty digit run, and — after a greedy gap —
the *last* reachable occurrence of `suffix` on the line all match; on a
match, record the captured digit run and resume scanning right after
the end of the match.  (The greedy `[0-9]+` capture never backtracks
usefully here because no suffix begins with a digit, so the capture is
the maximal digit run.)
-/
import Mathlib

set_option autoImplicit false

abbrev Chars := List Char

/-- Match a literal (a regex-escaped string) at the head of the text,
returning the remaining text on success. -/
def matchLit : Chars → Chars → Option Chars
  | [], s => some s
  | _ :: _, [] => none
  | c :: p, d :: s => if c = d then matchLit p s else none

/-- Greedy `.*SUFFIX`: return the text after the *last* occurrence of
`su` reachable from the current position without crossing a newline
(Python `.` does not match `\n`). -/
def findLastSuffix (su : Chars) : Chars → Option Chars
  | [] => matchLit su []
  | c :: u =>
    match (if c = '\n' then none else findLastSuffix su u) with
    | some r => some r
    | none => matchLit su (c :: u)

/-- The decimal value of a captured digit run (Python `int(match)`). -/
def digitsToNat (ds : Chars) : Nat :=
  ds.foldl (fun n c => 10 * n + (c.toNat - '0'.toNat)) 0

/-- One category pattern, up to the shared literal prefix:
`mid` is the literal between the lazy gap and the capture,
`suffix` the literal after the greedy gap. -/
structure Pat where
  mid : Chars
  suffix : Chars
  deriving DecidableEq, Repr

/-- `MID([0-9]+).*SUFFIX` at exactly the current position: the literal
`mid`, then a non-empty (maximal) digit run, then the greedy gap and
`suffix`.  Returns the captured value and the text after the match. -/
def tryHead (pat : Pat) (t : Chars) : Option (Nat × Chars) :=
  match matchLit pat.mid t with
  | none => none
  | some u =>
    let ds := u.takeWhile Char.isDigit
    if ds = [] then none
    else
      match findLastSuffix pat.suffix (u.dropWhile Char.isDigit) with
      | some r => some (digitsToNat ds, r)
      | none => none

/-- Lazy `.*?MID([0-9]+).*SUFFIX`: try `mid` + digits + suffix at the
current position; on failure consume one non-newline character and
retry (the lazy gap grows). -/
def tryMid (pat : Pat) : Chars → Option (Nat × Chars)
  | [] => none
  | c :: t =>
    match tryHead pat (c :: t) with
    | some res => some res
    | none => if c = '\n' then none else tryMid pat t

/-- The literal prefix `\(combat\) <` shared by every category regex. -/
def preCombat : Chars := "(combat) <".toList

/-- Attempt a full match of a category regex starting exactly at the
head of `s`. -/
def matchHere (pat : Pat) (s : Chars) : Option (Nat × Chars) :=
  match matchLit preCombat s with
  | none => none
  | some t => tryMid pat t

/-- Fuelled scan loop of `re.findall`: try a match at each position,
resuming after the end of each match.  One unit of fuel is spent per
character position, so `s.length` fuel always suffices. -/
def findallF (pat : Pat) : Nat → Chars → List Nat
  | 0, _ => []
  | _ + 1, [] => []
  | fuel + 1, c :: s =>
    match matchHere pat (c :: s) with
    | some (v, rest) => v :: findallF pat fuel rest
    | none => findallF pat fuel s

/-- `regex.findall(logData)`: the captured values of all
(non-overlapping, left-to-right) matches. -/
def findall (pat : Pat) (s : Chars) : List Nat := findallF pat s.length s

/-- `LogReader.extractValues` / `PlaybackLogReader.extractValues`:
sum the integer values of all matches; no match yields 0. -/
def extractValues (pat : Pat) (logData : Chars) : Nat :=
  (findall pat logData).sum

/- The fourteen category regexes of `BaseLogReader.__init__`,
reduced to their (mid, suffix) parts. -/

def damageOutRegex : Pat := ⟨"><b>".toList, ">to<".toList⟩
def damageInRegex : Pat := ⟨"><b>".toList, ">from<".toList⟩
def armorRepairedOutRegex : Pat :=
  ⟨"><b>".toList, "> remote armor repaired to <".toList⟩
def hullRepairedOutRegex : Pat :=
  ⟨"><b>".toList, "> remote hull repaired to <".toList⟩
def shieldBoostedOutRegex : Pat :=
  ⟨"><b>".toList, "> remote shield boosted to <".toList⟩
def armorRepairedInRegex : Pat :=
  ⟨"><b>".toList, "> remote armor repaired by <".toList⟩
def hullRepairedInRegex : Pat :=
  ⟨"><b>".toList, "> remote hull repaired by <".toList⟩
def shieldBoostedInRegex : Pat :=
  ⟨"><b>".toList, "> remote shield boosted by <".toList⟩
def capTransferedOutRegex : Pat :=
  ⟨"><b>".toList, "> remote capacitor transmitted to <".toList⟩
def capNeutralizedOutRegex : Pat :=
  ⟨"ff7fffff><b>".toList, "> energy neutralized <".toList⟩
def nosRecievedRegex : Pat :=
  ⟨"><b>+".toList, "> energy drained from <".toList⟩
def capTransferedInRegex : Pat :=
  ⟨"><b>".toList, "> remote capacitor transmitted by <".toList⟩
def capNeutralizedInRegex : Pat :=
  ⟨"ffe57f7f><b>".toList, "> energy neutralized <".toList⟩
def nosTakenRegex : Pat :=
  ⟨"><b>-".toList, "> energy drained to <".toList⟩

/-- The eight-integer Event Totals Tuple returned by
`BaseLogReader.readLog`, with the field names of the source's local
variables. -/
structure EventTotals where
  damageOut : Nat
  damageIn : Nat
  logisticsOut : Nat
  logisticsIn : Nat
  capTransfered : Nat
  capRecieved : Nat
  capDamageDone : Nat
  capDamageRecieved : Nat
  deriving DecidableEq, Repr

def zeroTotals : EventTotals := ⟨0, 0, 0, 0, 0, 0, 0, 0⟩

/-- Componentwise sum of two Event Totals Tuples. -/
def EventTotals.add (a b : EventTotals) : EventTotals :=
  ⟨a.damageOut + b.damageOut, a.damageIn + b.damageIn,
   a.logisticsOut + b.logisticsOut, a.logisticsIn + b.logisticsIn,
   a.capTransfered + b.capTransfered, a.capRecieved + b.capRecieved,
   a.capDamageDone + b.capDamageDone,
   a.capDamageRecieved + b.capDamageRecieved⟩

/-- `BaseLogReader.readLog(logData)`: reduce a block of newly-read text
to the eight category totals.  Note that `nosRecievedRegex` is summed
into both `capRecieved` and `capDamageDone`, exactly as in the source. -/
def readLogData (logData : Chars) : EventTotals :=
  let damageOut := extractValues damageOutRegex logData
  let damageIn := extractValues damageInRegex logData
  let logisticsOut := extractValues armorRepairedOutRegex logData
    + extractValues hullRepairedOutRegex logData
    + extractValues shieldBoostedOutRegex logData
  let logisticsIn := extractValues armorRepairedInRegex logData
    + extractValues hullRepairedInRegex logData
    + extractValues shieldBoostedInRegex logData
  let capTransfered := extractValues capTransferedOutRegex logData
  let capRecieved := extractValues capTransferedInRegex logData
    + extractValues nosRecievedRegex logData
  let capDamageDone := extractValues capNeutralizedOutRegex logData
    + extractValues nosRecievedRegex logData
  let capDamageRecieved := extractValues capNeutralizedInRegex logData
    + extractValues nosTakenRegex logData
  ⟨damageOut, damageIn, logisticsOut, logisticsIn, capTransfered,
   capRecieved, capDamageDone, capDamageRecieved⟩

/-
File-handle and reader models.  A Python text-file handle is a pair of
the file's contents and a read cursor; `readline` returns the next line
(including its newline, or the unterminated tail at end of file) and
advances the cursor; `read()` returns everything from the cursor to the
end of the file and leaves the cursor there.
-/

/-- Split off a `readline` result from the text after the cursor:
the next line including its `'\n'`, or the whole remainder if it has
no newline. -/
def lineAndRest (s : Chars) : Chars × Chars :=
  match s.dropWhile (fun c => ¬ c = '\n') with
  | [] => (s, [])
  | _ :: rest => (s.takeWhile (fun c => ¬ c = '\n') ++ ['\n'], rest)

/-- `file.readline()` on a handle at cursor `pos`: the line read and
the new cursor position. -/
def readlineFrom (content : Chars) (pos : Nat) : Chars × Nat :=
  let ln := (lineAndRest (content.drop pos)).1
  (ln, pos + ln.length)

/-- Cursor position after `n` consecutive `readline()` calls from the
start of the file. -/
def nthLinePos (content : Chars) : Nat → Nat
  | 0 => 0
  | n + 1 => (readlineFrom content (nthLinePos content n)).2

/-- The `n`-th line (1-based) as returned by the `n`-th `readline()`
call, newline included. -/
def nthLine (content : Chars) (n : Nat) : Chars :=
  (readlineFrom content (nthLinePos content (n - 1))).1

/-- `re.search("(?<=Listener: ).*", line)`: the text after the first
occurrence of "Listener: ", up to (excluding) the end of the line, or
`none` when the marker is absent. -/
def searchListener : Chars → Option Chars
  | [] => none
  | c :: s =>
    match matchLit ("Listener: ".toList) (c :: s) with
    | some rest => some (rest.takeWhile (fun d => ¬ d = '\n'))
    | none => searchListener s

/-- `re.search("(?<=Session Started: ).*", line)`, analogously. -/
def searchSessionStarted : Chars → Option Chars
  | [] => none
  | c :: s =>
    match matchLit ("Session Started: ".toList) (c :: s) with
    | some rest => some (rest.takeWhile (fun d => ¬ d = '\n'))
    | none => searchSessionStarted s

/-- The fixed separator line signalling a header collision
(60 dashes, then a newline). -/
def separatorLine : Chars := List.replicate 60 '-' ++ ['\n']

/-- The Python exceptions that can escape the modelled code.
`BadLogException` carries its message, so the collision error is
distinguishable from the not-a-character-log error. -/
inductive PyErr where
  | badLog : Chars → PyErr
  | attributeError : PyErr
  | indexError : PyErr
  | valueError : PyErr
  deriving DecidableEq, Repr

def notCharacterLogMsg : Chars := "not character log".toList
def logFileCollisionMsg : Chars := "log file collision".toList

/-- The state of a live `LogReader`: an open handle on one log file. -/
structure LogReaderSt where
  content : Chars
  pos : Nat
  deriving DecidableEq, Repr

/-- `LogReader.__init__(logPath)`: consume two blank lines, extract the
character from the Listener line (else `BadLogException`), consume two
more lines, fail with a collision `BadLogException` if the sixth line
is the separator (reading the colliding character's name first — a
missing Listener there makes `.group(0)` of `None` raise
`AttributeError`), and otherwise consume the rest of the file
(`self.log.read()`), leaving the cursor at end of file. -/
def mkLogReader (content : Chars) : Except PyErr LogReaderSt :=
  match searchListener (nthLine content 3) with
  | none => .error (.badLog notCharacterLogMsg)
  | some _character =>
    if nthLine content 6 = separatorLine then
      match searchListener (nthLine content 8) with
      | some _collisionCharacter => .error (.badLog logFileCollisionMsg)
      | none => .error .attributeError
    else
      .ok { content := content, pos := content.length }

/-- `LogReader.readLog()`: read the delta appended since the last read
and reduce it to the Event Totals Tuple; the cursor moves to the end of
the file. -/
def LogReaderSt.readLogL (r : LogReaderSt) : EventTotals × LogReaderSt :=
  let logData := r.content.drop r.pos
  (readLogData logData, { r with pos := r.content.length })

/-- `LogReader.catchup()`: `self.log.read()` with the result discarded —
the cursor moves to end of file, nothing is returned. -/
def LogReaderSt.catchupL (r : LogReaderSt) : LogReaderSt :=
  { r with pos := r.content.length }

/-- The state a successful `PlaybackLogReader.__init__` would produce.
(The model shows construction never succeeds, so no value of this type
is ever produced.) -/
structure PlaybackSt where
  pos : Nat
  deriving DecidableEq, Repr

/-- Model of `datetime.strptime(ts, "%Y.%m.%d %X")`: shape template for
a session timestamp, `'0'` standing for a required digit. -/
def sessionTimeShape : Chars := "0000.00.00 00:00:00".toList

/-- Shape check of a timestamp against the template. -/
def matchesShape : Chars → Chars → Bool
  | [], [] => true
  | t :: ts, c :: cs =>
    (if t = '0' then c.isDigit else c = t) && matchesShape ts cs
  | _, _ => false

/-- `datetime.strptime(ts, "%Y.%m.%d %X")`: succeeds on a
well-shaped timestamp, raises `ValueError` otherwise.  The parsed value
itself is never used by the modelled code (construction fails first),
so it is not computed. -/
def strptimeSession (ts : Chars) : Except PyErr Unit :=
  if matchesShape sessionTimeShape ts then .ok () else .error .valueError

/-- `PlaybackLogReader.__init__(logPath)`: same header handling as the
live reader (collisions tolerated), then
`self.nextTime = datetime.datetime.strptime(self.timeRegex.findall(self.nextLine).group(0), ...)`
— but `findall` returns a `list`, which has no attribute `group`, so
this line always raises `AttributeError`: construction never succeeds. -/
def mkPlaybackLogReader (content : Chars) : Except PyErr PlaybackSt :=
  match searchListener (nthLine content 3) with
  | none => .error (.badLog notCharacterLogMsg)
  | some _character =>
    match searchSessionStarted (nthLine content 4) with
    | none => .error .attributeError
    | some ts =>
      match strptimeSession ts with
      | .error e => .error e
      | .ok _ =>
        if nthLine content 6 = separatorLine then
          match searchListener (nthLine content 8) with
          | none => .error .attributeError
          | some _collisionCharacter => .error .attributeError
        else .error .attributeError

/-- Whether an `Except` result is a success. -/
def isOkE {ε α : Type} : Except ε α → Bool
  | .ok _ => true
  | .error _ => false

/-
`CharacterDetector` model.  The Tk menu is modelled as its list of
radiobutton (label, value) pairs; `selectedIndex` is the `IntVar`.
-/

structure CDState where
  menuEntries : List Chars
  logReaders : List LogReaderSt
  selectedIndex : Nat
  playbackLogReader : Option PlaybackSt
  menu : List (Chars × Nat)
  deriving DecidableEq, Repr

/-- Index of the first registry entry equal to `character`
(the `for i in range(len(self.menuEntries))` loop). -/
def firstIdx (entries : List Chars) (character : Chars) : Option Nat :=
  match entries with
  | [] => none
  | e :: es =>
    if character = e then some 0 else (firstIdx es character).map (· + 1)

/-- `CharacterDetector.addLog(logPath)`: read the third line of the
file, extract the character from its Listener marker (silently ignore
the file when absent); if the character is already registered, build a
new `LogReader` and replace that entry's reader (`BadLogException` is
caught and ignored; any other exception propagates); otherwise build a
new reader, append it, and add a menu radiobutton whose value is the
fresh display-order index. -/
def addLogE (st : CDState) (content : Chars) : Except PyErr CDState :=
  match searchListener (nthLine content 3) with
  | none => .ok st
  | some character =>
    match firstIdx st.menuEntries character with
    | some i =>
      match mkLogReader content with
      | .error (.badLog _) => .ok st
      | .error e => .error e
      | .ok newLogReader =>
        if i < st.logReaders.length then
          .ok { st with logReaders := st.logReaders.set i newLogReader }
        else .error .indexError
    | none =>
      match mkLogReader content with
      | .error (.badLog _) => .ok st
      | .error e => .error e
      | .ok newLogReader =>
        .ok { st with
          logReaders := st.logReaders ++ [newLogReader],
          menu := st.menu ++ [(character, st.menuEntries.length)],
          menuEntries := st.menuEntries ++ [character] }

/-- `CharacterDetector.playbackLog(logPath)`: construct a
`PlaybackLogReader` into the field, catching only `BadLogException`;
in all non-raising paths the field is then unconditionally overwritten
with `None` (line 112 runs after the `try`/`except`).  Any other
exception propagates before that assignment. -/
def playbackLogCD (st : CDState) (content : Chars) : Except PyErr CDState :=
  match mkPlaybackLogReader content with
  | .ok _p => .ok { st with playbackLogReader := none }
  | .error (.badLog _) => .ok { st with playbackLogReader := none }
  | .error e => .error e

/-- The non-playback part of `CharacterDetector.readLog`: delegate to
the selected entry's reader when the registry is non-empty (an
out-of-range selection raises `IndexError` — there is no handler in
`readLog`), else return the all-zero tuple. -/
def liveDispatchCD (st : CDState) : Except PyErr (EventTotals × CDState) :=
  if st.menuEntries.length > 0 then
    match st.logReaders.get? st.selectedIndex with
    | some r =>
      let res := r.readLogL
      .ok (res.1,
        { st with logReaders := st.logReaders.set st.selectedIndex res.2 })
    | none => .error .indexError
  else .ok (zeroTotals, st)

/-- `CharacterDetector.readLog()`: a truthy `playbackLogReader` is
delegated to exclusively (its `readLog` dereferences the never-assigned
`self.nextEntry`, an `AttributeError`); otherwise dispatch to the live
registry. -/
def readLogCD (st : CDState) : Except PyErr (EventTotals × CDState) :=
  match st.playbackLogReader with
  | some _p => .error .attributeError
  | none => liveDispatchCD st

/-- Decidable equality of `Except` results, for concrete evaluation. -/
def exceptEqDec {ε α : Type} [DecidableEq ε] [DecidableEq α] :
    (a b : Except ε α) → Decidable (a = b)
  | .ok a, .ok b =>
    if h : a = b then .isTrue (congrArg Except.ok h)
    else .isFalse (fun g => h (Except.ok.inj g))
  | .ok _, .error _ => .isFalse (fun g => Except.noConfusion g)
  | .error _, .ok _ => .isFalse (fun g => Except.noConfusion g)
  | .error e, .error f =>
    if h : e = f then .isTrue (congrArg Except.error h)
    else .isFalse (fun g => h (Except.error.inj g))

instance instDecEqExcept {ε α : Type} [DecidableEq ε] [DecidableEq α] :
    DecidableEq (Except ε α) := exceptEqDec

/-
Concrete inputs used by the counterexamples and witnesses below.
-/

/-- C1 counterexample, left block: contains the prefix, mid and digits
of a damage-out match but no `">to<"`. -/
def cexBlockA : Chars := "(combat) <><b>5".toList

/-- C1 counterexample, right block: supplies the missing `">to<"`, so a
match spans the concatenation boundary. -/
def cexBlockB : Chars := ">to<".toList

/-- A complete (newline-terminated) energy-drained log line, value 10. -/
def wBlockA : Chars :=
  "(combat) <c><b>+10</b> energy drained from <F>".toList ++ ['\n']

/-- A damage-out log line without terminating newline. -/
def wBlockB : Chars := "(combat) <x><b>125 j>to<Y".toList

/-- Two energy-drained-from lines with captured values 10 and 15. -/
def nosDrainBlock : Chars :=
  ("(combat) <c><b>+10</b> energy drained from <F>\n"
    ++ "(combat) <c><b>+15</b> energy drained from <F>\n").toList

/-- A detector state with an empty registry. -/
def emptyRegistrySt : CDState := ⟨[], [], 0, none, []⟩

/-- A detector state whose selected index (0) has no corresponding
reader: one menu entry but an empty reader list. -/
def outOfRangeSt : CDState :=
  ⟨["Bob".toList], [], 0, none, [("Bob".toList, 0)]⟩

/-- A detector state with one registered character and its reader. -/
def oneEntrySt : CDState :=
  ⟨["Bob".toList], [⟨[], 0⟩], 0, none, [("Bob".toList, 0)]⟩

/-- A well-formed character log: blank, blank, Listener, Session
Started, blank, then a first event line (not the separator). -/
def validLog : Chars :=
  ("\n\nListener: Bob\nSession Started: 2019.01.01 12:00:00\n\n"
    ++ "[ 2019.01.01 12:00:05 ] (combat) stuff\n").toList

/-- A header-collision log: the sixth line is the separator, followed
by the colliding session's header. -/
def collisionLog : Chars :=
  ("\n\nListener: Bob\nSession Started: 2019.01.01 12:00:00\n\n"
    ++ "------------------------------------------------------------\n"
    ++ "\nListener: Eve\n").toList

/-- A combat line appended to a file after construction. -/
def appendedLine : Chars :=
  "[ 2019.01.01 12:00:09 ] (combat) <x><b>125 j>to<Y\n".toList

/-
Lemmas for the additivity analysis (claim C1).  Every category match is
confined to a single line, because the lazy gap, the digit run, the
greedy gap and the literals all refuse `'\n'`.  Hence scanning a block
that ends in a newline can neither see nor consume anything of a block
appended after it.
-/

/-- A block that ends with a newline, so no match can cross its right
edge when more text is appended. -/
def EndsNl (t : Chars) : Prop := ∃ t', t = t' ++ ['\n']

lemma endsNl_ne_nil {t : Chars} (h : EndsNl t) : t ≠ [] := by
  obtain ⟨t', rfl⟩ := h
  simp

lemma endsNl_cons {c : Char} {t : Chars} (h : EndsNl (c :: t)) :
    (t = [] ∧ c = '\n') ∨ (t ≠ [] ∧ EndsNl t) := by
  obtain ⟨t', ht⟩ := h
  cases t' with
  | nil =>
    simp only [List.nil_append, List.cons.injEq] at ht
    exact Or.inl ⟨ht.2, ht.1⟩
  | cons d t'' =>
    simp only [List.cons_append, List.cons.injEq] at ht
    refine Or.inr ⟨?_, ⟨t'', ht.2⟩⟩
    rw [ht.2]
    simp

lemma matchLit_append :
    ∀ (p t b : Chars), '\n' ∉ p → EndsNl t →
      matchLit p (t ++ b) = (matchLit p t).map (· ++ b) := by
  intro p
  induction p with
  | nil => intro t b _ _; simp [matchLit]
  | cons c p' ih =>
    intro t b hp ht
    simp only [List.mem_cons, not_or] at hp
    cases t with
    | nil => exact absurd rfl (endsNl_ne_nil ht)
    | cons d t' =>
      simp only [List.cons_append, matchLit]
      by_cases hcd : c = d
      · subst hcd
        simp only [if_pos rfl]
        rcases endsNl_cons ht with ⟨_, hdn⟩ | ⟨_, ht'⟩
        · exact absurd hdn.symm hp.1
        · exact ih t' b hp.2 ht'
      · simp [if_neg hcd]

lemma matchLit_endsNl :
    ∀ {p t r : Chars}, '\n' ∉ p → EndsNl t → matchLit p t = some r →
      EndsNl r := by
  intro p
  induction p with
  | nil =>
    intro t r _ ht h
    simp only [matchLit, Option.some.injEq] at h
    exact h ▸ ht
  | cons c p' ih =>
    intro t r hp ht h
    simp only [List.mem_cons, not_or] at hp
    cases t with
    | nil => exact absurd rfl (endsNl_ne_nil ht)
    | cons d t' =>
      simp only [matchLit] at h
      by_cases hcd : c = d
      · rw [if_pos hcd] at h
        rcases endsNl_cons ht with ⟨_, hdn⟩ | ⟨_, ht'⟩
        · exact absurd (hcd.trans hdn).symm hp.1
        · exact ih hp.2 ht' h
      · rw [if_neg hcd] at h
        exact absurd h (by simp)

lemma matchLit_length :
    ∀ {p t r : Chars}, matchLit p t = some r → r.length ≤ t.length := by
  intro p
  induction p with
  | nil =>
    intro t r h
    simp only [matchLit, Option.some.injEq] at h
    exact h ▸ le_rfl
  | cons c p' ih =>
    intro t r h
    cases t with
    | nil => exact absurd h (by simp [matchLit])
    | cons d t' =>
      simp only [matchLit] at h
      by_cases hcd : c = d
      · rw [if_pos hcd] at h
        exact le_trans (ih h) (Nat.le_succ _)
      · rw [if_neg hcd] at h
        exact absurd h (by simp)

lemma findLastSuffix_length {su : Chars} :
    ∀ {u r : Chars}, findLastSuffix su u = some r → r.length ≤ u.length := by
  intro u
  induction u with
  | nil =>
    intro r h
    simp only [findLastSuffix] at h
    exact matchLit_length h
  | cons c u' ih =>
    intro r h
    simp only [findLastSuffix] at h
    by_cases hc : c = '\n'
    · rw [if_pos hc] at h
      exact matchLit_length h
    · rw [if_neg hc] at h
      cases hfl : findLastSuffix su u' with
      | some r0 =>
        rw [hfl] at h
        simp only [Option.some.injEq] at h
        exact le_trans (h ▸ ih hfl) (Nat.le_succ _)
      | none =>
        rw [hfl] at h
        exact matchLit_length h

lemma findLastSuffix_endsNl {su : Chars} (hsu : '\n' ∉ su) :
    ∀ {u r : Chars}, EndsNl u → findLastSuffix su u = some r →
      EndsNl r := by
  intro u
  induction u with
  | nil =>
    intro r hu _
    exact absurd rfl (endsNl_ne_nil hu)
  | cons c u' ih =>
    intro r hu h
    simp only [findLastSuffix] at h
    by_cases hc : c = '\n'
    · rw [if_pos hc] at h
      exact matchLit_endsNl hsu hu h
    · rw [if_neg hc] at h
      cases hfl : findLastSuffix su u' with
      | some r0 =>
        rw [hfl] at h
        simp only [Option.some.injEq] at h
        rcases endsNl_cons hu with ⟨_, hcn⟩ | ⟨_, hu'⟩
        · exact absurd hcn hc
        · exact h ▸ ih hu' hfl
      | none =>
        rw [hfl] at h
        exact matchLit_endsNl hsu hu h

lemma findLastSuffix_append {su : Chars} (hsu : '\n' ∉ su) :
    ∀ (u b : Chars), EndsNl u →
      findLastSuffix su (u ++ b)
        = (findLastSuffix su u).map (· ++ b) := by
  intro u
  induction u with
  | nil => intro b hu; exact absurd rfl (endsNl_ne_nil hu)
  | cons c u' ih =>
    intro b hu
    simp only [List.cons_append, findLastSuffix]
    by_cases hc : c = '\n'
    · rw [if_pos hc, if_pos hc]
      exact matchLit_append su (c :: u') b hsu hu
    · rw [if_neg hc, if_neg hc]
      rcases endsNl_cons hu with ⟨_, hcn⟩ | ⟨_, hu'⟩
      · exact absurd hcn hc
      · simp only [List.append_eq]
        rw [ih b hu']
        cases hfl : findLastSuffix su u' with
        | some r0 => simp
        | none =>
          simp only [Option.map_none']
          exact matchLit_append su (c :: u') b hsu hu

lemma takeWhile_append_endsNl {p : Char → Bool} (hnl : p '\n' = false) :
    ∀ (u b : Chars), EndsNl u →
      (u ++ b).takeWhile p = u.takeWhile p := by
  intro u
  induction u with
  | nil => intro b hu; exact absurd rfl (endsNl_ne_nil hu)
  | cons c u' ih =>
    intro b hu
    simp only [List.cons_append, List.takeWhile_cons]
    by_cases hp : p c
    · rw [hp]
      rcases endsNl_cons hu with ⟨_, hcn⟩ | ⟨_, hu'⟩
      · rw [hcn] at hp
        rw [hnl] at hp
        exact absurd hp (by simp)
      · rw [ih b hu']
    · simp only [Bool.not_eq_true] at hp
      rw [hp]
      simp

lemma dropWhile_append_endsNl {p : Char → Bool} (hnl : p '\n' = false) :
    ∀ (u b : Chars), EndsNl u →
      (u ++ b).dropWhile p = u.dropWhile p ++ b := by
  intro u
  induction u with
  | nil => intro b hu; exact absurd rfl (endsNl_ne_nil hu)
  | cons c u' ih =>
    intro b hu
    simp only [List.cons_append, List.dropWhile_cons]
    by_cases hp : p c
    · rw [hp]
      rcases endsNl_cons hu with ⟨_, hcn⟩ | ⟨_, hu'⟩
      · rw [hcn] at hp
        rw [hnl] at hp
        exact absurd hp (by simp)
      · simp only [if_pos rfl]
        exact ih b hu'
    · simp only [Bool.not_eq_true] at hp
      rw [hp]
      simp

lemma dropWhile_endsNl {p : Char → Bool} (hnl : p '\n' = false) :
    ∀ {u : Chars}, EndsNl u → EndsNl (u.dropWhile p) := by
  intro u
  induction u with
  | nil => intro hu; exact absurd rfl (endsNl_ne_nil hu)
  | cons c u' ih =>
    intro hu
    simp only [List.dropWhile_cons]
    by_cases hp : p c
    · rw [hp]
      rcases endsNl_cons hu with ⟨_, hcn⟩ | ⟨_, hu'⟩
      · rw [hcn] at hp
        rw [hnl] at hp
        exact absurd hp (by simp)
      · simp only [if_pos rfl]
        exact ih hu'
    · simp only [Bool.not_eq_true] at hp
      rw [hp]
      simpa using hu

lemma isDigit_newline_false : Char.isDigit '\n' = false := by decide

lemma tryHead_append {pat : Pat} (hm : '\n' ∉ pat.mid)
    (hs : '\n' ∉ pat.suffix) (t b : Chars) (ht : EndsNl t) :
    tryHead pat (t ++ b)
      = (tryHead pat t).map (fun vr => (vr.1, vr.2 ++ b)) := by
  unfold tryHead
  rw [matchLit_append pat.mid t b hm ht]
  cases hml : matchLit pat.mid t with
  | none => simp
  | some u =>
    have hu : EndsNl u := matchLit_endsNl hm ht hml
    simp only [Option.map_some']
    rw [takeWhile_append_endsNl isDigit_newline_false u b hu]
    by_cases hds : u.takeWhile Char.isDigit = []
    · simp [hds]
    · simp only [if_neg hds]
      rw [dropWhile_append_endsNl isDigit_newline_false u b hu]
      rw [findLastSuffix_append hs (u.dropWhile Char.isDigit) b
            (dropWhile_endsNl isDigit_newline_false hu)]
      cases hfl : findLastSuffix pat.suffix (u.dropWhile Char.isDigit) with
      | some r => simp
      | none => simp

lemma tryHead_endsNl {pat : Pat} (hm : '\n' ∉ pat.mid)
    (hs : '\n' ∉ pat.suffix) {t : Chars} {v : Nat} {r : Chars}
    (ht : EndsNl t) (h : tryHead pat t = some (v, r)) : EndsNl r := by
  unfold tryHead at h
  cases hml : matchLit pat.mid t with
  | none => rw [hml] at h; exact absurd h (by simp)
  | some u =>
    rw [hml] at h
    have hu : EndsNl u := matchLit_endsNl hm ht hml
    simp only at h
    by_cases hds : u.takeWhile Char.isDigit = []
    · rw [if_pos hds] at h
      exact absurd h (by simp)
    · rw [if_neg hds] at h
      cases hfl : findLastSuffix pat.suffix (u.dropWhile Char.isDigit) with
      | none => rw [hfl] at h; exact absurd h (by simp)
      | some r0 =>
        rw [hfl] at h
        simp only [Option.some.injEq, Prod.mk.injEq] at h
        exact h.2 ▸ findLastSuffix_endsNl hs
          (dropWhile_endsNl isDigit_newline_false hu) hfl

lemma tryHead_length {pat : Pat} {t : Chars} {v : Nat} {r : Chars}
    (h : tryHead pat t = some (v, r)) : r.length < t.length := by
  unfold tryHead at h
  cases hml : matchLit pat.mid t with
  | none => rw [hml] at h; exact absurd h (by simp)
  | some u =>
    rw [hml] at h
    simp only at h
    by_cases hds : u.takeWhile Char.isDigit = []
    · rw [if_pos hds] at h
      exact absurd h (by simp)
    · rw [if_neg hds] at h
      cases hfl : findLastSuffix pat.suffix (u.dropWhile Char.isDigit) with
      | none => rw [hfl] at h; exact absurd h (by simp)
      | some r0 =>
        rw [hfl] at h
        simp only [Option.some.injEq, Prod.mk.injEq] at h
        have hr : r.length ≤ (u.dropWhile Char.isDigit).length :=
          h.2 ▸ findLastSuffix_length hfl
        have hsplit : (u.takeWhile Char.isDigit).length
            + (u.dropWhile Char.isDigit).length = u.length := by
          rw [← List.length_append, List.takeWhile_append_dropWhile]
        have hds1 : 0 < (u.takeWhile Char.isDigit).length :=
          List.length_pos.mpr hds
        have hut : u.length ≤ t.length := matchLit_length hml
        omega

lemma tryMid_append {pat : Pat} (hm : '\n' ∉ pat.mid)
    (hs : '\n' ∉ pat.suffix) :
    ∀ (t b : Chars), EndsNl t →
      tryMid pat (t ++ b)
        = (tryMid pat t).map (fun vr => (vr.1, vr.2 ++ b)) := by
  intro t
  induction t with
  | nil => intro b ht; exact absurd rfl (endsNl_ne_nil ht)
  | cons c t' ih =>
    intro b ht
    simp only [List.cons_append, tryMid, List.append_eq]
    have happ := tryHead_append hm hs (c :: t') b ht
    simp only [List.cons_append] at happ
    rw [happ]
    cases hth : tryHead pat (c :: t') with
    | some res => simp
    | none =>
      simp only [Option.map_none']
      by_cases hc : c = '\n'
      · rw [if_pos hc, if_pos hc]
        simp
      · rw [if_neg hc, if_neg hc]
        rcases endsNl_cons ht with ⟨_, hcn⟩ | ⟨_, ht'⟩
        · exact absurd hcn hc
        · exact ih b ht'

lemma tryMid_endsNl {pat : Pat} (hm : '\n' ∉ pat.mid)
    (hs : '\n' ∉ pat.suffix) :
    ∀ {t : Chars} {v : Nat} {r : Chars}, EndsNl t →
      tryMid pat t = some (v, r) → EndsNl r := by
  intro t
  induction t with
  | nil => intro v r ht _; exact absurd rfl (endsNl_ne_nil ht)
  | cons c t' ih =>
    intro v r ht h
    simp only [tryMid] at h
    cases hth : tryHead pat (c :: t') with
    | some res =>
      rw [hth] at h
      simp only [Option.some.injEq] at h
      obtain ⟨v0, r0⟩ := res
      cases h
      exact tryHead_endsNl hm hs ht hth
    | none =>
      rw [hth] at h
      by_cases hc : c = '\n'
      · rw [if_pos hc] at h
        exact absurd h (by simp)
      · rw [if_neg hc] at h
        rcases endsNl_cons ht with ⟨_, hcn⟩ | ⟨_, ht'⟩
        · exact absurd hcn hc
        · exact ih ht' h

lemma tryMid_length {pat : Pat} :
    ∀ {t : Chars} {v : Nat} {r : Chars}, tryMid pat t = some (v, r) →
      r.length < t.length := by
  intro t
  induction t with
  | nil => intro v r h; exact absurd h (by simp [tryMid])
  | cons c t' ih =>
    intro v r h
    simp only [tryMid] at h
    cases hth : tryHead pat (c :: t') with
    | some res =>
      rw [hth] at h
      simp only [Option.some.injEq] at h
      obtain ⟨v0, r0⟩ := res
      cases h
      exact tryHead_length hth
    | none =>
      rw [hth] at h
      by_cases hc : c = '\n'
      · rw [if_pos hc] at h
        exact absurd h (by simp)
      · rw [if_neg hc] at h
        exact Nat.lt_trans (ih h) (Nat.lt_succ_self _)

lemma newline_not_mem_preCombat : '\n' ∉ preCombat := by decide

lemma matchHere_append {pat : Pat} (hm : '\n' ∉ pat.mid)
    (hs : '\n' ∉ pat.suffix) (s b : Chars) (hsnl : EndsNl s) :
    matchHere pat (s ++ b)
      = (matchHere pat s).map (fun vr => (vr.1, vr.2 ++ b)) := by
  unfold matchHere
  rw [matchLit_append preCombat s b newline_not_mem_preCombat hsnl]
  cases hml : matchLit preCombat s with
  | none => simp
  | some t =>
    simp only [Option.map_some']
    exact tryMid_append hm hs t b
      (matchLit_endsNl newline_not_mem_preCombat hsnl hml)

lemma matchHere_endsNl {pat : Pat} (hm : '\n' ∉ pat.mid)
    (hs : '\n' ∉ pat.suffix) {s : Chars} {v : Nat} {r : Chars}
    (hsnl : EndsNl s) (h : matchHere pat s = some (v, r)) : EndsNl r := by
  unfold matchHere at h
  cases hml : matchLit preCombat s with
  | none => rw [hml] at h; exact absurd h (by simp)
  | some t =>
    rw [hml] at h
    exact tryMid_endsNl hm hs
      (matchLit_endsNl newline_not_mem_preCombat hsnl hml) h

lemma matchHere_length {pat : Pat} {s : Chars} {v : Nat} {r : Chars}
    (h : matchHere pat s = some (v, r)) : r.length < s.length := by
  unfold matchHere at h
  cases hml : matchLit preCombat s with
  | none => rw [hml] at h; exact absurd h (by simp)
  | some t =>
    rw [hml] at h
    exact Nat.lt_of_lt_of_le (tryMid_length h) (matchLit_length hml)

lemma findallF_of_le {pat : Pat} :
    ∀ (f : Nat) (s : Chars), s.length ≤ f →
      findallF pat f s = findall pat s := by
  intro f
  induction f using Nat.strong_induction_on with
  | _ f ih =>
    intro s hlen
    cases f with
    | zero =>
      have hz : s = [] := List.length_eq_zero.mp (Nat.le_zero.mp hlen)
      subst hz
      rfl
    | succ f' =>
      cases s with
      | nil => rfl
      | cons c s' =>
        simp only [List.length_cons] at hlen
        rw [findall, List.length_cons]
        cases hmh : matchHere pat (c :: s') with
        | some vr =>
          obtain ⟨v, rest⟩ := vr
          have hrl : rest.length < s'.length + 1 := matchHere_length hmh
          simp only [findallF, hmh]
          rw [ih f' (Nat.lt_succ_self f') rest (by omega)]
          rw [ih s'.length (by omega) rest (by omega)]
        | none =>
          simp only [findallF, hmh]
          rw [ih f' (Nat.lt_succ_self f') s' (by omega)]
          rfl

lemma findall_cons_some {pat : Pat} {c : Char} {s : Chars} {v : Nat}
    {rest : Chars} (h : matchHere pat (c :: s) = some (v, rest)) :
    findall pat (c :: s) = v :: findall pat rest := by
  have hrl : rest.length < s.length + 1 := matchHere_length h
  rw [findall, List.length_cons]
  simp only [findallF, h]
  rw [findallF_of_le s.length rest (by omega)]

lemma findall_cons_none {pat : Pat} {c : Char} {s : Chars}
    (h : matchHere pat (c :: s) = none) :
    findall pat (c :: s) = findall pat s := by
  rw [findall, List.length_cons]
  simp only [findallF, h]
  rfl

lemma findall_append_bounded {pat : Pat} (hm : '\n' ∉ pat.mid)
    (hs : '\n' ∉ pat.suffix) :
    ∀ (n : Nat) (a b : Chars), a.length ≤ n → a = [] ∨ EndsNl a →
      findall pat (a ++ b) = findall pat a ++ findall pat b := by
  intro n
  induction n with
  | zero =>
    intro a b hlen _
    have ha : a = [] := List.length_eq_zero.mp (Nat.le_zero.mp hlen)
    subst ha
    rfl
  | succ n ih =>
    intro a b hlen hor
    rcases hor with rfl | hnl
    · rfl
    · cases a with
      | nil => exact absurd rfl (endsNl_ne_nil hnl)
      | cons c a' =>
        simp only [List.length_cons] at hlen
        have hstep := matchHere_append hm hs (c :: a') b hnl
        rw [List.cons_append]
        cases hmh : matchHere pat (c :: a') with
        | some vr =>
          obtain ⟨v, rest⟩ := vr
          rw [hmh, Option.map_some'] at hstep
          simp only [List.cons_append] at hstep
          have hrl : rest.length < a'.length + 1 := matchHere_length hmh
          have hrnl : EndsNl rest := matchHere_endsNl hm hs hnl hmh
          rw [findall_cons_some hstep, findall_cons_some hmh]
          rw [ih rest b (by omega) (Or.inr hrnl), List.cons_append]
        | none =>
          rw [hmh, Option.map_none'] at hstep
          simp only [List.cons_append] at hstep
          rw [findall_cons_none hstep, findall_cons_none hmh]
          rcases endsNl_cons hnl with ⟨rfl, _⟩ | ⟨_, ha'⟩
          · rfl
          · exact ih a' b (by omega) (Or.inr ha')

/-- Additivity of a single category extractor over a line-terminated
left block. -/
lemma extractValues_append {pat : Pat} (hm : '\n' ∉ pat.mid)
    (hs : '\n' ∉ pat.suffix) (a b : Chars) (ha : a = [] ∨ EndsNl a) :
    extractValues pat (a ++ b)
      = extractValues pat a + extractValues pat b := by
  unfold extractValues
  rw [findall_append_bounded hm hs a.length a b le_rfl ha, List.sum_append]

-- sanity checks of the matcher on concrete text
example :
    findall damageOutRegex "(combat) <x><b>125 junk>to<Y".toList
      = [125] := by decide
example :
    findall damageOutRegex "(combat) <x><b>125 junk>tox".toList
      = [] := by decide
example :
    readLogData "(combat) <c><b>+10</b> energy drained from <F>\n".toList
      = ⟨0, 0, 0, 0, 0, 10, 10, 0⟩ := by decide

/-- C1, counterexample: extracting the concatenation of the blocks
"(combat) <><b>5" and ">to<" yields damageOut = 5, while each block
alone extracts to the all-zero tuple — a damage-out match spans the
concatenation boundary, so additivity fails for arbitrary blocks. -/
theorem c1_readLog_not_additive :
    readLogData (cexBlockA ++ cexBlockB)
      ≠ (readLogData cexBlockA).add (readLogData cexBlockB) := by decide

/-- C1 (amended): for all pairs of text blocks a and b such that a is
empty or ends with a newline (as any delta made of complete log lines
does), running the extractor on a ++ b yields the componentwise sum of
running it on a and on b separately.  The line-termination condition is
forced by the counterexample: without it a match can straddle the
boundary. -/
theorem c1_readLog_additive_of_line_terminated (a b : Chars)
    (ha : a = [] ∨ EndsNl a) :
    readLogData (a ++ b) = (readLogData a).add (readLogData b) := by
  have e01 := @extractValues_append damageOutRegex (by decide) (by decide) a b ha
  have e02 := @extractValues_append damageInRegex (by decide) (by decide) a b ha
  have e03 := @extractValues_append armorRepairedOutRegex (by decide) (by decide) a b ha
  have e04 := @extractValues_append hullRepairedOutRegex (by decide) (by decide) a b ha
  have e05 := @extractValues_append shieldBoostedOutRegex (by decide) (by decide) a b ha
  have e06 := @extractValues_append armorRepairedInRegex (by decide) (by decide) a b ha
  have e07 := @extractValues_append hullRepairedInRegex (by decide) (by decide) a b ha
  have e08 := @extractValues_append shieldBoostedInRegex (by decide) (by decide) a b ha
  have e09 := @extractValues_append capTransferedOutRegex (by decide) (by decide) a b ha
  have e10 := @extractValues_append capNeutralizedOutRegex (by decide) (by decide) a b ha
  have e11 := @extractValues_append nosRecievedRegex (by decide) (by decide) a b ha
  have e12 := @extractValues_append capTransferedInRegex (by decide) (by decide) a b ha
  have e13 := @extractValues_append capNeutralizedInRegex (by decide) (by decide) a b ha
  have e14 := @extractValues_append nosTakenRegex (by decide) (by decide) a b ha
  simp only [readLogData, EventTotals.add, e01, e02, e03, e04, e05, e06,
    e07, e08, e09, e10, e11, e12, e13, e14, EventTotals.mk.injEq]
  refine ⟨?_, ?_, ?_, ?_, ?_, ?_, ?_, ?_⟩ <;> first | trivial | omega

/-- C1 witness: the amended additivity theorem applied to a concrete
newline-terminated energy-drained line and a concrete damage-out
line. -/
theorem c1_readLog_additive_witness :
    (wBlockA = [] ∨ EndsNl wBlockA)
    ∧ readLogData (wBlockA ++ wBlockB)
      = (readLogData wBlockA).add (readLogData wBlockB) :=
  ⟨Or.inr ⟨"(combat) <c><b>+10</b> energy drained from <F>".toList, rfl⟩,
   c1_readLog_additive_of_line_terminated wBlockA wBlockB
     (Or.inr ⟨"(combat) <c><b>+10</b> energy drained from <F>".toList, rfl⟩)⟩

/-- C2: for every text block, the capacitor-received total (6th
component) and the capacitor-damage-done total (7th component) each
include the full energy-drained-from sum as a summand; concretely, two
such lines with captured values 10 and 15 yield 25 in both components
and 0 everywhere else. -/
theorem c2_energy_drained_counts_twice :
    (∀ s : Chars,
      (readLogData s).capRecieved
          = extractValues capTransferedInRegex s
            + extractValues nosRecievedRegex s
      ∧ (readLogData s).capDamageDone
          = extractValues capNeutralizedOutRegex s
            + extractValues nosRecievedRegex s)
    ∧ readLogData nosDrainBlock = ⟨0, 0, 0, 0, 0, 25, 25, 0⟩ :=
  ⟨fun _s => ⟨rfl, rfl⟩, by decide⟩

/-- C3: a text block on which none of the fourteen category patterns
has a match extracts to the all-zero eight-tuple (the extractor is a
total function — absence of matches is not an error). -/
theorem c3_no_match_all_zero (s : Chars)
    (h01 : findall damageOutRegex s = [])
    (h02 : findall damageInRegex s = [])
    (h03 : findall armorRepairedOutRegex s = [])
    (h04 : findall hullRepairedOutRegex s = [])
    (h05 : findall shieldBoostedOutRegex s = [])
    (h06 : findall armorRepairedInRegex s = [])
    (h07 : findall hullRepairedInRegex s = [])
    (h08 : findall shieldBoostedInRegex s = [])
    (h09 : findall capTransferedOutRegex s = [])
    (h10 : findall capNeutralizedOutRegex s = [])
    (h11 : findall nosRecievedRegex s = [])
    (h12 : findall capTransferedInRegex s = [])
    (h13 : findall capNeutralizedInRegex s = [])
    (h14 : findall nosTakenRegex s = []) :
    readLogData s = zeroTotals := by
  simp only [readLogData, extractValues, h01, h02, h03, h04, h05, h06,
    h07, h08, h09, h10, h11, h12, h13, h14, List.sum_nil, zeroTotals]
  rfl

/-- C3 witness: a block with no category markers extracts to zero. -/
theorem c3_no_match_witness :
    readLogData "hello world\n".toList = zeroTotals :=
  c3_no_match_all_zero "hello world\n".toList (by decide) (by decide)
    (by decide) (by decide) (by decide) (by decide) (by decide) (by decide)
    (by decide) (by decide) (by decide) (by decide) (by decide) (by decide)

/-- C4, counterexample: with a non-empty registry whose selected index
(0) has no corresponding reader, `CharacterDetector.readLog` raises
`IndexError` instead of yielding the zero tuple — the claimed recovery
does not happen in `readLog` (only `catchupLog` suppresses
`IndexError`). -/
theorem c4_out_of_range_raises :
    readLogCD outOfRangeSt = .error .indexError := by decide

/-- C4 (amended): when no playback reader is active,
`CharacterDetector.readLog` returns the all-zero eight-tuple whenever
the registry is empty (this branch can never fail); but when the
registry is non-empty and the selected index has no corresponding
reader, the call raises `IndexError` rather than recovering with the
zero tuple. -/
theorem c4_dispatch_amended (st : CDState)
    (hpb : st.playbackLogReader = none) :
    (st.menuEntries = [] → readLogCD st = .ok (zeroTotals, st))
    ∧ (st.menuEntries ≠ [] →
        st.logReaders.get? st.selectedIndex = none →
        readLogCD st = .error .indexError) := by
  constructor
  · intro hme
    simp [readLogCD, hpb, liveDispatchCD, hme]
  · intro hme hidx
    have hlen : 0 < st.menuEntries.length := List.length_pos.mpr hme
    rw [List.get?_eq_getElem?] at hidx
    simp [readLogCD, hpb, liveDispatchCD, hidx, hlen]

/-- C4 witness: the amended dispatch theorem at an empty registry and
at an out-of-range selection. -/
theorem c4_dispatch_amended_witness :
    readLogCD emptyRegistrySt = .ok (zeroTotals, emptyRegistrySt)
    ∧ readLogCD outOfRangeSt = .error .indexError :=
  ⟨(c4_dispatch_amended emptyRegistrySt rfl).1 rfl,
   (c4_dispatch_amended outOfRangeSt rfl).2 (by decide) rfl⟩

/-- C5: for a file with a Listener header whose sixth line (the line
immediately after the header) is the separator line, live `LogReader`
construction always fails — with the distinguishable collision
`BadLogException` when a Listener line follows the separator, and with
`AttributeError` otherwise — and `addLog` never registers a reader: it
either returns the state unchanged (the collision `BadLogException` is
caught) or propagates the `AttributeError` before any mutation. -/
theorem c5_collision_never_registers (content : Chars) (st : CDState)
    (ch : Chars) (hL : searchListener (nthLine content 3) = some ch)
    (hSep : nthLine content 6 = separatorLine) :
    (mkLogReader content = .error (.badLog logFileCollisionMsg)
      ∨ mkLogReader content = .error .attributeError)
    ∧ (addLogE st content = .ok st
      ∨ addLogE st content = .error .attributeError) := by
  have hmk : mkLogReader content = .error (.badLog logFileCollisionMsg)
      ∨ mkLogReader content = .error .attributeError := by
    cases hcol : searchListener (nthLine content 8) with
    | some c2 =>
      left
      simp [mkLogReader, hL, hSep, hcol]
    | none =>
      right
      simp [mkLogReader, hL, hSep, hcol]
  refine ⟨hmk, ?_⟩
  rcases hmk with hmk | hmk
  · left
    cases hfi : firstIdx st.menuEntries ch with
    | some i => simp [addLogE, hL, hfi, hmk]
    | none => simp [addLogE, hL, hfi, hmk]
  · right
    cases hfi : firstIdx st.menuEntries ch with
    | some i => simp [addLogE, hL, hfi, hmk]
    | none => simp [addLogE, hL, hfi, hmk]

/-- C5 witness: the collision theorem at a concrete collision file and
an empty detector state. -/
theorem c5_collision_witness :
    (mkLogReader collisionLog = .error (.badLog logFileCollisionMsg)
      ∨ mkLogReader collisionLog = .error .attributeError)
    ∧ (addLogE emptyRegistrySt collisionLog = .ok emptyRegistrySt
      ∨ addLogE emptyRegistrySt collisionLog = .error .attributeError) :=
  c5_collision_never_registers collisionLog emptyRegistrySt
    ("Bob".toList) (by decide) (by decide)

/-- C6: registering a file whose Character Identity is already in the
registry (at first matching index `i`, with a reader present there)
replaces only that entry's Session Reader: the resulting state differs
from the old one only in `logReaders[i]`, so the menu entries, the menu
radiobuttons (display-order values), the selection and the playback
field are unchanged, and the registry size is preserved. -/
theorem c6_replaces_reader_only (st : CDState) (content : Chars)
    (ch : Chars) (i : Nat) (r : LogReaderSt)
    (hch : searchListener (nthLine content 3) = some ch)
    (hidx : firstIdx st.menuEntries ch = some i)
    (hok : mkLogReader content = .ok r)
    (hlen : i < st.logReaders.length) :
    addLogE st content
      = .ok { st with logReaders := st.logReaders.set i r }
    ∧ (st.logReaders.set i r).length = st.logReaders.length := by
  constructor
  · simp [addLogE, hch, hidx, hok, hlen]
  · exact List.length_set st.logReaders i r

/-- C6 witness: replacing the registered reader of "Bob" by a reader
for a new file. -/
theorem c6_replaces_reader_witness :
    addLogE oneEntrySt validLog
      = .ok { oneEntrySt with
          logReaders := oneEntrySt.logReaders.set 0
            ⟨validLog, validLog.length⟩ }
    ∧ (oneEntrySt.logReaders.set 0 ⟨validLog, validLog.length⟩).length
      = oneEntrySt.logReaders.length :=
  c6_replaces_reader_only oneEntrySt validLog ("Bob".toList) 0
    ⟨validLog, validLog.length⟩ (by decide) (by decide) (by decide)
    (by decide)

/-- C7: for every live Session Reader, `catchup()` followed
immediately by `read()` — with no text appended in between, i.e. on
the same reader state — yields the all-zero eight-tuple: the delta is
empty. -/
theorem c7_catchup_then_read_zero (r : LogReaderSt) :
    (r.catchupL.readLogL).1 = zeroTotals := by
  simp [LogReaderSt.readLogL, LogReaderSt.catchupL, List.drop_length]
  rfl

/-- C8: the claimed time-gated replay is unreachable, because
`PlaybackLogReader.__init__` is broken: it always either raises one of
the header errors or reaches
`datetime.strptime(self.timeRegex.findall(self.nextLine).group(0), ...)`,
where `.group` is called on the `list` returned by `findall`, raising
`AttributeError`.  Construction never succeeds (first conjunct), and on
a well-formed log it raises `AttributeError` (second conjunct); no
playback `read()` can therefore ever be issued. -/
theorem c8_playback_constructor_broken :
    (∀ content : Chars, isOkE (mkPlaybackLogReader content) = false)
    ∧ mkPlaybackLogReader validLog = .error .attributeError := by
  constructor
  · intro content
    unfold mkPlaybackLogReader
    repeat' split
    all_goals rfl
  · decide

/-- C9: whenever `PlaybackLogReader` construction succeeds or raises
`BadLogException` (the only exception `playbackLog` catches), the
`playbackLogReader` field is `None` after `CharacterDetector.playbackLog`
returns — the assignment after the `try`/`except` unconditionally
overwrites it — so a subsequent `readLog` dispatches to the live
registry, never to a playback reader installed by `playbackLog`. -/
theorem c9_playback_field_always_none (st : CDState) (content : Chars)
    (h : (∃ p, mkPlaybackLogReader content = .ok p)
      ∨ (∃ m, mkPlaybackLogReader content = .error (.badLog m))) :
    ∃ st', playbackLogCD st content = .ok st'
      ∧ st'.playbackLogReader = none
      ∧ readLogCD st' = liveDispatchCD st' := by
  rcases h with ⟨p, hp⟩ | ⟨m, hm⟩
  · exact ⟨{ st with playbackLogReader := none },
      by simp [playbackLogCD, hp], rfl, rfl⟩
  · exact ⟨{ st with playbackLogReader := none },
      by simp [playbackLogCD, hm], rfl, rfl⟩

/-- C9 witness: on an empty file the constructor raises
`BadLogException("not character log")`, and the field is `None`
afterwards. -/
theorem c9_playback_field_witness :
    ∃ st', playbackLogCD emptyRegistrySt [] = .ok st'
      ∧ st'.playbackLogReader = none
      ∧ readLogCD st' = liveDispatchCD st' :=
  c9_playback_field_always_none emptyRegistrySt []
    (Or.inr ⟨notCharacterLogMsg, by decide⟩)

/-- C10: a successfully constructed live `LogReader` has consumed the
entire file present at construction: its handle still holds that
content and its cursor sits at end of file, so the first `read()` after
text is appended extracts exactly the appended text, never the
historical body. -/
theorem c10_construction_consumes_all (c t : Chars) (r : LogReaderSt)
    (hok : mkLogReader c = .ok r) :
    r.content = c ∧ r.pos = c.length
    ∧ (LogReaderSt.readLogL { content := c ++ t, pos := r.pos }).1
        = readLogData t := by
  have hr : r = ⟨c, c.length⟩ := by
    unfold mkLogReader at hok
    split at hok
    · exact absurd hok (by simp)
    · split at hok
      · split at hok
        · exact absurd hok (by simp)
        · exact absurd hok (by simp)
      · exact (Except.ok.inj hok).symm
  subst hr
  refine ⟨rfl, rfl, ?_⟩
  simp [LogReaderSt.readLogL, List.drop_left]

/-- C10 witness: construction on a concrete well-formed log, followed
by a read of a concretely appended combat line. -/
theorem c10_construction_witness :
    (⟨validLog, validLog.length⟩ : LogReaderSt).content = validLog
    ∧ (⟨validLog, validLog.length⟩ : LogReaderSt).pos = validLog.length
    ∧ (LogReaderSt.readLogL
        { content := validLog ++ appendedLine,
          pos := (⟨validLog, validLog.length⟩ : LogReaderSt).pos }).1
      = readLogData appendedLine :=
  c10_construction_consumes_all validLog appendedLine
    ⟨validLog, validLog.length⟩ (by decide)

-- agreement probes against CPython re semantics: the greedy gap
-- swallows later occurrences on the same line, and no part of a match
-- crosses a newline
example :
    findall damageOutRegex
      "(combat) <x><b>12 q>to<A>to<B (combat) <y><b>34>to<C".toList
      = [12] := by decide
example : findall damageOutRegex "(combat) <x\n><b>5>to<".toList = [] := by
  decide
example : findall damageOutRegex "(combat) <x><b>5\n>to<".toList = [] := by
  decide
example : findall nosRecievedRegex nosDrainBlock = [10, 15] := by decide
